import Mathlib

/-!
Shallow embedding of the sysvm pyvmomi automation tool
(sysvm/__init__.py and sysvm/main.py) together with proofs about it.

vCenter-side objects (tasks, property-collector update sets, virtual
machines, networks) are modelled as explicit data.  Each VConn method
is translated into a pure function: the bulk-operation methods return
the sequence of SDK actions they perform (task issues followed by
waits), and the task poller VConn._wait_for_tasks consumes an explicit
stream of property-collector update sets, mirroring the Python loop
statement by statement.
-/

namespace Sysvm

/-! ### Tasks and property-collector updates (sysvm/__init__.py lines 98-141) -/

/-- Identifier of a vCenter Task managed object.  It stands for the
string str(task) that the Python code uses as the key in task_list;
distinct tasks have distinct string representations. -/
abbrev TaskId := Nat

/-- The task states of vim.TaskInfo.State. -/
inductive TaskState
  | queued
  | running
  | success
  | error
  deriving DecidableEq, Repr

/-- A task state is terminal when the task has finished, successfully
or not (vim.TaskInfo.State.success or vim.TaskInfo.State.error). -/
def TaskState.isTerminal : TaskState → Bool
  | TaskState.success => true
  | TaskState.error => true
  | TaskState.queued => false
  | TaskState.running => false

/-- One property change inside an ObjectUpdate.changeSet.  The Python
loop only inspects changes named "info" (whose value is a TaskInfo,
from which it reads .state) and "info.state" (whose value is the state
itself); every other change name is skipped by the continue branch. -/
inductive Change
  | info (st : TaskState)
  | infoState (st : TaskState)
  | other (name : String)
  deriving DecidableEq, Repr

/-- The task state carried by a property change, if the loop reads one:
for a change named "info" it is change.val.state, for "info.state" it
is change.val, and for any other name the loop skips the change. -/
def Change.stateOf : Change → Option TaskState
  | Change.info st => some st
  | Change.infoState st => some st
  | Change.other _ => none

/-- One ObjectUpdate of a PropertyCollector update: the task object it
concerns (obj_set.obj) and its list of property changes. -/
structure ObjectUpdate where
  obj : TaskId
  changeSet : List Change
  deriving DecidableEq, Repr

/-- One PropertyFilterUpdate (filter_set entry) of an UpdateSet. -/
structure FilterUpdate where
  objectSet : List ObjectUpdate
  deriving DecidableEq, Repr

/-- One UpdateSet as returned by property_collector.WaitForUpdates. -/
structure UpdateSet where
  filterSet : List FilterUpdate
  deriving DecidableEq, Repr

/-- Predicate: update set u carries, for task t, a change that the
polling loop would read as state st. -/
def UpdateSet.reports (u : UpdateSet) (t : TaskId) (st : TaskState) : Prop :=
  ∃ fs ∈ u.filterSet, ∃ os ∈ fs.objectSet,
    os.obj = t ∧ ∃ c ∈ os.changeSet, c.stateOf = some st

/-- Processing of a single property change by the body of the Python
for-change loop, acting on the current task_list: changes with other
names are skipped; a change for a task no longer in task_list is
skipped; a success state removes the first occurrence of the task from
task_list (task_list.remove); an error state raises the error of the task
(modelled as Except.error carrying the task); any other state leaves
task_list unchanged. -/
def processChange (task : TaskId) (tl : List TaskId) (c : Change) :
    Except TaskId (List TaskId) :=
  match c.stateOf with
  | none => Except.ok tl
  | some st =>
    if task ∈ tl then
      if st = TaskState.success then Except.ok (tl.erase task)
      else if st = TaskState.error then Except.error task
      else Except.ok tl
    else Except.ok tl

/-- Processing of obj_set.changeSet: the changes of one ObjectUpdate
are handled in order, stopping at the first raised error. -/
def processChanges (task : TaskId) : List TaskId → List Change → Except TaskId (List TaskId)
  | tl, [] => Except.ok tl
  | tl, c :: cs =>
    match processChange task tl c with
    | Except.error t => Except.error t
    | Except.ok tl2 => processChanges task tl2 cs

/-- Processing of filter_set.objectSet: the ObjectUpdates of one
FilterUpdate are handled in order, stopping at the first raised error. -/
def processObjects : List TaskId → List ObjectUpdate → Except TaskId (List TaskId)
  | tl, [] => Except.ok tl
  | tl, os :: rest =>
    match processChanges os.obj tl os.changeSet with
    | Except.error t => Except.error t
    | Except.ok tl2 => processObjects tl2 rest

/-- Processing of update.filterSet: the FilterUpdates of one UpdateSet
are handled in order, stopping at the first raised error. -/
def processFilters : List TaskId → List FilterUpdate → Except TaskId (List TaskId)
  | tl, [] => Except.ok tl
  | tl, fs :: rest =>
    match processObjects tl fs.objectSet with
    | Except.error t => Except.error t
    | Except.ok tl2 => processFilters tl2 rest

/-- Processing of one whole UpdateSet returned by WaitForUpdates. -/
def processUpdate (tl : List TaskId) (u : UpdateSet) : Except TaskId (List TaskId) :=
  processFilters tl u.filterSet

/-- Outcome of the polling loop of VConn._wait_for_tasks. -/
inductive WaitResult
  | done
  | raised (t : TaskId)
  | starved (remaining : List TaskId)
  deriving DecidableEq, Repr

/-- The while-loop of VConn._wait_for_tasks: while task_list is
nonempty, fetch the next UpdateSet from WaitForUpdates and process it.
The update stream is finite here; if it runs out while tasks are still
pending the loop is blocked inside WaitForUpdates, modelled as
WaitResult.starved. -/
def waitLoop : List TaskId → List UpdateSet → WaitResult
  | [], _ => WaitResult.done
  | t :: ts, [] => WaitResult.starved (t :: ts)
  | t :: ts, u :: us =>
    match processUpdate (t :: ts) u with
    | Except.error e => WaitResult.raised e
    | Except.ok tl2 => waitLoop tl2 us

/-- VConn._wait_for_tasks: task_list is initialised with (the string
keys of) all tasks of the batch, then the polling loop runs. -/
def waitForTasks (tasks : List TaskId) (updates : List UpdateSet) : WaitResult :=
  waitLoop tasks updates

/-! ### Lemmas about the poller -/

theorem processChange_ok_mem (task : TaskId) (tl tl2 : List TaskId) (c : Change)
    (h : processChange task tl c = Except.ok tl2) :
    ∀ x ∈ tl, x ∈ tl2 ∨ (x = task ∧ c.stateOf = some TaskState.success) := by
  intro x hx
  unfold processChange at h
  cases hst : c.stateOf with
  | none =>
    rw [hst] at h
    injection h with h
    subst h
    exact Or.inl hx
  | some st =>
    rw [hst] at h
    dsimp only at h
    by_cases hmem : task ∈ tl
    · rw [if_pos hmem] at h
      by_cases hsucc : st = TaskState.success
      · subst hsucc
        rw [if_pos rfl] at h
        injection h with h
        subst h
        by_cases hxt : x = task
        · exact Or.inr ⟨hxt, rfl⟩
        · exact Or.inl ((List.mem_erase_of_ne hxt).mpr hx)
      · rw [if_neg hsucc] at h
        by_cases herr : st = TaskState.error
        · rw [if_pos herr] at h
          exact absurd h (by simp)
        · rw [if_neg herr] at h
          injection h with h
          subst h
          exact Or.inl hx
    · rw [if_neg hmem] at h
      injection h with h
      subst h
      exact Or.inl hx

theorem processChange_ok_sublist (task : TaskId) (tl tl2 : List TaskId) (c : Change)
    (h : processChange task tl c = Except.ok tl2) : tl2.Sublist tl := by
  unfold processChange at h
  cases hst : c.stateOf with
  | none =>
    rw [hst] at h
    injection h with h
    subst h
    exact List.Sublist.refl tl
  | some st =>
    rw [hst] at h
    dsimp only at h
    by_cases hmem : task ∈ tl
    · rw [if_pos hmem] at h
      by_cases hsucc : st = TaskState.success
      · subst hsucc
        rw [if_pos rfl] at h
        injection h with h
        subst h
        exact List.erase_sublist task tl
      · rw [if_neg hsucc] at h
        by_cases herr : st = TaskState.error
        · rw [if_pos herr] at h
          exact absurd h (by simp)
        · rw [if_neg herr] at h
          injection h with h
          subst h
          exact List.Sublist.refl tl
    · rw [if_neg hmem] at h
      injection h with h
      subst h
      exact List.Sublist.refl tl

theorem processChange_error (task : TaskId) (tl : List TaskId) (c : Change) (t : TaskId)
    (h : processChange task tl c = Except.error t) :
    t = task ∧ task ∈ tl ∧ c.stateOf = some TaskState.error := by
  unfold processChange at h
  cases hst : c.stateOf with
  | none =>
    rw [hst] at h
    exact absurd h (by simp)
  | some st =>
    rw [hst] at h
    dsimp only at h
    by_cases hmem : task ∈ tl
    · rw [if_pos hmem] at h
      by_cases hsucc : st = TaskState.success
      · rw [if_pos hsucc] at h
        exact absurd h (by simp)
      · rw [if_neg hsucc] at h
        by_cases herr : st = TaskState.error
        · rw [if_pos herr] at h
          injection h with h
          exact ⟨h.symm, hmem, by rw [herr]⟩
        · rw [if_neg herr] at h
          exact absurd h (by simp)
    · rw [if_neg hmem] at h
      exact absurd h (by simp)

theorem processChanges_ok_mem (task : TaskId) :
    ∀ (cs : List Change) (tl tl2 : List TaskId),
      processChanges task tl cs = Except.ok tl2 →
      ∀ x ∈ tl, x ∈ tl2 ∨ (x = task ∧ ∃ c ∈ cs, c.stateOf = some TaskState.success) := by
  intro cs
  induction cs with
  | nil =>
    intro tl tl2 h x hx
    unfold processChanges at h
    injection h with h
    subst h
    exact Or.inl hx
  | cons c cs ih =>
    intro tl tl2 h x hx
    unfold processChanges at h
    cases hc : processChange task tl c with
    | error t => rw [hc] at h; exact absurd h (by simp)
    | ok tlmid =>
      rw [hc] at h
      rcases processChange_ok_mem task tl tlmid c hc x hx with hx2 | ⟨hxt, hcs⟩
      · rcases ih tlmid tl2 h x hx2 with hx3 | ⟨hxt, c2, hc2, hstate⟩
        · exact Or.inl hx3
        · exact Or.inr ⟨hxt, c2, List.mem_cons_of_mem c hc2, hstate⟩
      · exact Or.inr ⟨hxt, c, List.mem_cons_self c cs, hcs⟩

theorem processChanges_ok_sublist (task : TaskId) :
    ∀ (cs : List Change) (tl tl2 : List TaskId),
      processChanges task tl cs = Except.ok tl2 → tl2.Sublist tl := by
  intro cs
  induction cs with
  | nil =>
    intro tl tl2 h
    unfold processChanges at h
    injection h with h
    subst h
    exact List.Sublist.refl tl
  | cons c cs ih =>
    intro tl tl2 h
    unfold processChanges at h
    cases hc : processChange task tl c with
    | error t => rw [hc] at h; exact absurd h (by simp)
    | ok tlmid =>
      rw [hc] at h
      exact (ih tlmid tl2 h).trans (processChange_ok_sublist task tl tlmid c hc)

theorem processChanges_error (task : TaskId) :
    ∀ (cs : List Change) (tl : List TaskId) (t : TaskId),
      processChanges task tl cs = Except.error t →
      t = task ∧ task ∈ tl ∧ ∃ c ∈ cs, c.stateOf = some TaskState.error := by
  intro cs
  induction cs with
  | nil =>
    intro tl t h
    unfold processChanges at h
    exact absurd h (by simp)
  | cons c cs ih =>
    intro tl t h
    unfold processChanges at h
    cases hc : processChange task tl c with
    | error t2 =>
      rw [hc] at h
      injection h with h
      subst h
      rcases processChange_error task tl c t2 hc with ⟨ht, hmem, hstate⟩
      exact ⟨ht, hmem, c, List.mem_cons_self c cs, hstate⟩
    | ok tlmid =>
      rw [hc] at h
      rcases ih tlmid t h with ⟨ht, hmem, c2, hc2, hstate⟩
      have hsub := processChange_ok_sublist task tl tlmid c hc
      exact ⟨ht, hsub.mem hmem, c2, List.mem_cons_of_mem c hc2, hstate⟩

theorem processObjects_ok_mem :
    ∀ (objs : List ObjectUpdate) (tl tl2 : List TaskId),
      processObjects tl objs = Except.ok tl2 →
      ∀ x ∈ tl, x ∈ tl2 ∨
        ∃ os ∈ objs, os.obj = x ∧ ∃ c ∈ os.changeSet, c.stateOf = some TaskState.success := by
  intro objs
  induction objs with
  | nil =>
    intro tl tl2 h x hx
    unfold processObjects at h
    injection h with h
    subst h
    exact Or.inl hx
  | cons os rest ih =>
    intro tl tl2 h x hx
    unfold processObjects at h
    cases hc : processChanges os.obj tl os.changeSet with
    | error t => rw [hc] at h; exact absurd h (by simp)
    | ok tlmid =>
      rw [hc] at h
      rcases processChanges_ok_mem os.obj os.changeSet tl tlmid hc x hx with hx2 | ⟨hxt, hcs⟩
      · rcases ih tlmid tl2 h x hx2 with hx3 | ⟨os2, hos2, hobj, hstate⟩
        · exact Or.inl hx3
        · exact Or.inr ⟨os2, List.mem_cons_of_mem os hos2, hobj, hstate⟩
      · exact Or.inr ⟨os, List.mem_cons_self os rest, hxt.symm, hcs⟩

theorem processObjects_ok_sublist :
    ∀ (objs : List ObjectUpdate) (tl tl2 : List TaskId),
      processObjects tl objs = Except.ok tl2 → tl2.Sublist tl := by
  intro objs
  induction objs with
  | nil =>
    intro tl tl2 h
    unfold processObjects at h
    injection h with h
    subst h
    exact List.Sublist.refl tl
  | cons os rest ih =>
    intro tl tl2 h
    unfold processObjects at h
    cases hc : processChanges os.obj tl os.changeSet with
    | error t => rw [hc] at h; exact absurd h (by simp)
    | ok tlmid =>
      rw [hc] at h
      exact (ih tlmid tl2 h).trans (processChanges_ok_sublist os.obj os.changeSet tl tlmid hc)

theorem processObjects_error :
    ∀ (objs : List ObjectUpdate) (tl : List TaskId) (t : TaskId),
      processObjects tl objs = Except.error t →
      t ∈ tl ∧ ∃ os ∈ objs, os.obj = t ∧ ∃ c ∈ os.changeSet, c.stateOf = some TaskState.error := by
  intro objs
  induction objs with
  | nil =>
    intro tl t h
    unfold processObjects at h
    exact absurd h (by simp)
  | cons os rest ih =>
    intro tl t h
    unfold processObjects at h
    cases hc : processChanges os.obj tl os.changeSet with
    | error t2 =>
      rw [hc] at h
      injection h with h
      subst h
      rcases processChanges_error os.obj os.changeSet tl t2 hc with ⟨ht, hmem, c, hcmem, hstate⟩
      subst ht
      exact ⟨hmem, os, List.mem_cons_self os rest, rfl, c, hcmem, hstate⟩
    | ok tlmid =>
      rw [hc] at h
      rcases ih tlmid t h with ⟨hmem, os2, hos2, hobj, hstate⟩
      have hsub := processChanges_ok_sublist os.obj os.changeSet tl tlmid hc
      exact ⟨hsub.mem hmem, os2, List.mem_cons_of_mem os hos2, hobj, hstate⟩

theorem processFilters_ok_mem :
    ∀ (fss : List FilterUpdate) (tl tl2 : List TaskId),
      processFilters tl fss = Except.ok tl2 →
      ∀ x ∈ tl, x ∈ tl2 ∨
        ∃ fs ∈ fss, ∃ os ∈ fs.objectSet,
          os.obj = x ∧ ∃ c ∈ os.changeSet, c.stateOf = some TaskState.success := by
  intro fss
  induction fss with
  | nil =>
    intro tl tl2 h x hx
    unfold processFilters at h
    injection h with h
    subst h
    exact Or.inl hx
  | cons fs rest ih =>
    intro tl tl2 h x hx
    unfold processFilters at h
    cases hc : processObjects tl fs.objectSet with
    | error t => rw [hc] at h; exact absurd h (by simp)
    | ok tlmid =>
      rw [hc] at h
      rcases processObjects_ok_mem fs.objectSet tl tlmid hc x hx with hx2 | ⟨os, hos, hobj, hstate⟩
      · rcases ih tlmid tl2 h x hx2 with hx3 | ⟨fs2, hfs2, rest2⟩
        · exact Or.inl hx3
        · exact Or.inr ⟨fs2, List.mem_cons_of_mem fs hfs2, rest2⟩
      · exact Or.inr ⟨fs, List.mem_cons_self fs rest, os, hos, hobj, hstate⟩

theorem processFilters_error :
    ∀ (fss : List FilterUpdate) (tl : List TaskId) (t : TaskId),
      processFilters tl fss = Except.error t →
      t ∈ tl ∧ ∃ fs ∈ fss, ∃ os ∈ fs.objectSet,
        os.obj = t ∧ ∃ c ∈ os.changeSet, c.stateOf = some TaskState.error := by
  intro fss
  induction fss with
  | nil =>
    intro tl t h
    unfold processFilters at h
    exact absurd h (by simp)
  | cons fs rest ih =>
    intro tl t h
    unfold processFilters at h
    cases hc : processObjects tl fs.objectSet with
    | error t2 =>
      rw [hc] at h
      injection h with h
      subst h
      rcases processObjects_error fs.objectSet tl t2 hc with ⟨hmem, os, hos, hobj, hstate⟩
      exact ⟨hmem, fs, List.mem_cons_self fs rest, os, hos, hobj, hstate⟩
    | ok tlmid =>
      rw [hc] at h
      rcases ih tlmid t h with ⟨hmem, fs2, hfs2, rest2⟩
      have hsub := processObjects_ok_sublist fs.objectSet tl tlmid hc
      exact ⟨hsub.mem hmem, fs2, List.mem_cons_of_mem fs hfs2, rest2⟩

theorem waitLoop_done_reports :
    ∀ (updates : List UpdateSet) (tl : List TaskId),
      waitLoop tl updates = WaitResult.done →
      ∀ t ∈ tl, ∃ u ∈ updates, UpdateSet.reports u t TaskState.success := by
  intro updates
  induction updates with
  | nil =>
    intro tl h t ht
    cases tl with
    | nil => exact absurd ht (by simp)
    | cons a as => exact absurd h (by simp [waitLoop])
  | cons u us ih =>
    intro tl h t ht
    cases tl with
    | nil => exact absurd ht (by simp)
    | cons a as =>
      unfold waitLoop at h
      cases hc : processUpdate (a :: as) u with
      | error e => rw [hc] at h; exact absurd h (by simp)
      | ok tl2 =>
        rw [hc] at h
        rcases processFilters_ok_mem u.filterSet (a :: as) tl2 hc t ht with ht2 | ⟨fs, hfs, os, hos, hobj, hstate⟩
        · rcases ih tl2 h t ht2 with ⟨u2, hu2, hrep⟩
          exact ⟨u2, List.mem_cons_of_mem u hu2, hrep⟩
        · exact ⟨u, List.mem_cons_self u us, fs, hfs, os, hos, hobj, hstate⟩

/-! ### Claim theorems for the poller -/

/-- C1: VConn._wait_for_tasks returns normally only after the polling
loop has observed, for every task of the batch, a property change
reporting the terminal state vim.TaskInfo.State.success; hence on
normal return no task of the batch is still queued or running. -/
theorem wait_for_tasks_returns_after_all_terminal
    (tasks : List TaskId) (updates : List UpdateSet)
    (h : waitForTasks tasks updates = WaitResult.done) :
    TaskState.isTerminal TaskState.success = true ∧
    ∀ t ∈ tasks, ∃ u ∈ updates, UpdateSet.reports u t TaskState.success :=
  ⟨rfl, waitLoop_done_reports updates tasks h⟩

/-- Concrete run of the C1 theorem: a batch of two tasks, an update
stream reporting success for both, and the conclusion instantiated. -/
def demoSuccessUpdates : List UpdateSet :=
  [ { filterSet := [ { objectSet := [ { obj := 0, changeSet := [Change.info TaskState.success] } ] } ] },
    { filterSet := [ { objectSet := [ { obj := 1, changeSet := [Change.infoState TaskState.success] } ] } ] } ]

theorem wait_for_tasks_returns_after_all_terminal_witness :
    waitForTasks [0, 1] demoSuccessUpdates = WaitResult.done ∧
    (TaskState.isTerminal TaskState.success = true ∧
      ∀ t ∈ [0, 1], ∃ u ∈ demoSuccessUpdates, UpdateSet.reports u t TaskState.success) :=
  ⟨rfl, wait_for_tasks_returns_after_all_terminal [0, 1] demoSuccessUpdates rfl⟩

/-- C2: if, while some tasks of the batch are still pending, the next
update set makes the loop observe an error state for one of them, then
VConn._wait_for_tasks raises the error of that task at once: the result is
WaitResult.raised for every possible continuation of the update
stream, so the wait for the remaining tasks is never completed. -/
theorem wait_for_tasks_raises_on_first_error
    (tl : List TaskId) (u : UpdateSet) (t : TaskId)
    (hne : tl ≠ []) (herr : processUpdate tl u = Except.error t) :
    (∀ rest : List UpdateSet, waitLoop tl (u :: rest) = WaitResult.raised t) ∧
    t ∈ tl ∧ UpdateSet.reports u t TaskState.error := by
  rcases processFilters_error u.filterSet tl t herr with ⟨hmem, hrep⟩
  refine ⟨?_, hmem, hrep⟩
  intro rest
  cases tl with
  | nil => exact absurd rfl hne
  | cons a as =>
    unfold waitLoop
    rw [herr]

/-- Concrete run of the C2 theorem: with both tasks pending, an update
set reporting an error for task 0 makes the loop raise immediately,
whatever the rest of the stream would have said about task 1. -/
def demoLaterUpdate : UpdateSet :=
  { filterSet := [ { objectSet := [ { obj := 1, changeSet := [Change.infoState TaskState.success] } ] } ] }

def demoErrorUpdate : UpdateSet :=
  { filterSet := [ { objectSet := [ { obj := 0, changeSet := [Change.infoState TaskState.error] } ] } ] }

theorem wait_for_tasks_raises_on_first_error_witness :
    ([0, 1] : List TaskId) ≠ [] ∧
    processUpdate [0, 1] demoErrorUpdate = Except.error 0 ∧
    waitLoop [0, 1] [demoErrorUpdate, demoLaterUpdate] = WaitResult.raised 0 :=
  ⟨by decide, rfl,
    (wait_for_tasks_raises_on_first_error [0, 1] demoErrorUpdate 0 (by decide) rfl).1
      [demoLaterUpdate]⟩

/-! ### Virtual machines, networks and devices (sysvm/__init__.py) -/

/-- A vim.Network: only its name is used by the code. -/
structure Network where
  name : String
  deriving DecidableEq, Repr

/-- The backing of a virtual device.  vm_change_network installs a
vim.vm.device.VirtualEthernetCard.NetworkBackingInfo whose network is
a Network object and whose deviceName is the name of the network; any
pre-existing backing is modelled as otherBacking. -/
inductive DeviceBacking
  | networkBacking (network : Network) (deviceName : String)
  | otherBacking
  deriving DecidableEq, Repr

/-- A vim.vm.device.VirtualDevice.ConnectInfo, restricted to the two
fields the code sets. -/
structure ConnectInfo where
  startConnected : Bool
  allowGuestControl : Bool
  deriving DecidableEq, Repr

/-- A vim.vm.device.VirtualEthernetCard, restricted to the fields the
code reads or writes (deviceInfo.label, backing, wakeOnLanEnabled,
connectable). -/
structure VirtualEthernetCard where
  label : String
  backing : DeviceBacking
  wakeOnLanEnabled : Bool
  connectable : ConnectInfo
  deriving DecidableEq, Repr

/-- An entry of vm.config.hardware.device: either a virtual ethernet
card (the isinstance test of vm_get_nics) or some other device. -/
inductive VirtualDevice
  | ethernetCard (card : VirtualEthernetCard)
  | otherDevice
  deriving DecidableEq, Repr

/-- A vim.VirtualMachine, restricted to the fields the code uses:
name, runtime.powerState (a string such as "poweredOff") and
config.hardware.device. -/
structure VM where
  name : String
  powerState : String
  devices : List VirtualDevice
  deriving DecidableEq, Repr

/-- The vCenter inventory visible through the two container views the
code creates (all VirtualMachines, all Networks under rootFolder). -/
structure Inventory where
  vms : List VM
  networks : List Network
  deriving DecidableEq, Repr

/-- The operation of a vim.vm.device.VirtualDeviceSpec. -/
inductive DeviceOperation
  | add
  | edit
  | remove
  deriving DecidableEq, Repr

/-- A vim.vm.device.VirtualDeviceSpec as built by vm_change_network:
an operation applied to a virtual ethernet card. -/
structure VirtualDeviceSpec where
  operation : DeviceOperation
  device : VirtualEthernetCard
  deriving DecidableEq, Repr

/-- A vim.vm.ConfigSpec, restricted to the deviceChange field the code
uses. -/
structure ConfigSpec where
  deviceChange : List VirtualDeviceSpec
  deriving DecidableEq, Repr

/-- A server-side task created by one of the SDK calls the code makes,
tagged with the VM it was called on and the arguments of the call. -/
inductive VmTask
  | powerOn (vm : VM)
  | powerOff (vm : VM)
  | createSnapshot (vm : VM) (name description : String) (memory quiesce : Bool)
  | revertToCurrentSnapshot (vm : VM) (suppressPowerOn : Bool)
  | destroy (vm : VM)
  | reconfigure (vm : VM) (spec : ConfigSpec)
  deriving DecidableEq, Repr

/-- One SDK action performed by a VConn method, in program order:
either issuing a task on the server or blocking in _wait_for_tasks on
a batch of previously issued tasks. -/
inductive Event
  | issue (task : VmTask)
  | waitAll (tasks : List VmTask)
  deriving DecidableEq, Repr

/-- VConn.vms_power (lines 143-151): one PowerOn (power_state True) or
PowerOff (power_state False) task per VM of the list, issued by the
list comprehension, then one _wait_for_tasks on the whole batch. -/
def vms_power (vms : List VM) (power_state : Bool) : List Event :=
  let tasks := vms.map (fun vm =>
    if power_state = true then VmTask.powerOn vm else VmTask.powerOff vm)
  tasks.map Event.issue ++ [Event.waitAll tasks]

/-- VConn.vms_snapshot (lines 153-169): one CreateSnapshot task per VM
with the given name, description "Created with sysvm", memory=False
and quiesce=False, then one _wait_for_tasks on the whole batch. -/
def vms_snapshot (vms : List VM) (name : String) : List Event :=
  let tasks := vms.map (fun vm =>
    VmTask.createSnapshot vm name "Created with sysvm" false false)
  tasks.map Event.issue ++ [Event.waitAll tasks]

/-- VConn.vms_restore_snapshot (lines 171-178): one
RevertToCurrentSnapshot task per VM with suppressPowerOn=False, then
one _wait_for_tasks on the whole batch. -/
def vms_restore_snapshot (vms : List VM) : List Event :=
  let tasks := vms.map (fun vm => VmTask.revertToCurrentSnapshot vm false)
  tasks.map Event.issue ++ [Event.waitAll tasks]

/-- VConn.vms_destroy (lines 181-191): if any VM is not powered off,
first issue a PowerOff task for every VM whose runtime.powerState is
not "poweredOff" and wait for those; then issue a Destroy task per VM
and wait for the whole destroy batch. -/
def vms_destroy (vms : List VM) : List Event :=
  (if vms.any (fun vm => vm.powerState != "poweredOff") then
    ((vms.filter (fun vm => vm.powerState != "poweredOff")).map VmTask.powerOff).map Event.issue
      ++ [Event.waitAll ((vms.filter (fun vm => vm.powerState != "poweredOff")).map VmTask.powerOff)]
  else [])
  ++ ((vms.map VmTask.destroy).map Event.issue ++ [Event.waitAll (vms.map VmTask.destroy)])

/-! ### Claim theorems for the bulk operations -/

/-- C3: vms_power issues one PowerOn task (power_state True) or one
PowerOff task (power_state False) for each VM of the list and then
waits, in a single _wait_for_tasks call placed after every issue, for
exactly that batch of tasks. -/
theorem vms_power_bulk (vms : List VM) :
    (vms_power vms true =
      (vms.map VmTask.powerOn).map Event.issue ++ [Event.waitAll (vms.map VmTask.powerOn)]) ∧
    (vms_power vms false =
      (vms.map VmTask.powerOff).map Event.issue ++ [Event.waitAll (vms.map VmTask.powerOff)]) ∧
    (∀ vm ∈ vms, Event.issue (VmTask.powerOn vm) ∈ vms_power vms true) ∧
    (∀ vm ∈ vms, Event.issue (VmTask.powerOff vm) ∈ vms_power vms false) := by
  have hon : vms_power vms true =
      (vms.map VmTask.powerOn).map Event.issue ++ [Event.waitAll (vms.map VmTask.powerOn)] := by
    simp [vms_power]
  have hoff : vms_power vms false =
      (vms.map VmTask.powerOff).map Event.issue ++ [Event.waitAll (vms.map VmTask.powerOff)] := by
    simp [vms_power]
  refine ⟨hon, hoff, ?_, ?_⟩
  · intro vm hvm
    rw [hon]
    exact List.mem_append_left _
      (List.mem_map_of_mem Event.issue (List.mem_map_of_mem VmTask.powerOn hvm))
  · intro vm hvm
    rw [hoff]
    exact List.mem_append_left _
      (List.mem_map_of_mem Event.issue (List.mem_map_of_mem VmTask.powerOff hvm))

theorem vms_power_bulk_witness :
    (⟨"vm-a", "poweredOff", []⟩ : VM) ∈ [(⟨"vm-a", "poweredOff", []⟩ : VM)] ∧
    Event.issue (VmTask.powerOn ⟨"vm-a", "poweredOff", []⟩) ∈
      vms_power [⟨"vm-a", "poweredOff", []⟩] true :=
  ⟨by simp, (vms_power_bulk [⟨"vm-a", "poweredOff", []⟩]).2.2.1 ⟨"vm-a", "poweredOff", []⟩ (by simp)⟩

/-- C4: vms_snapshot issues exactly one CreateSnapshot task per
occurrence of a VM in the list, with the given snapshot name and with
memory capture and quiescing disabled, and then waits, after every
issue, for exactly that batch of snapshot tasks. -/
theorem vms_snapshot_bulk (vms : List VM) (name : String) :
    (vms_snapshot vms name =
      (vms.map (fun vm => VmTask.createSnapshot vm name "Created with sysvm" false false)).map Event.issue
        ++ [Event.waitAll (vms.map (fun vm => VmTask.createSnapshot vm name "Created with sysvm" false false))]) ∧
    (∀ vm ∈ vms,
      Event.issue (VmTask.createSnapshot vm name "Created with sysvm" false false) ∈ vms_snapshot vms name) ∧
    (∀ vm : VM,
      (vms_snapshot vms name).count
        (Event.issue (VmTask.createSnapshot vm name "Created with sysvm" false false)) = vms.count vm) := by
  refine ⟨rfl, ?_, ?_⟩
  · intro vm hvm
    exact List.mem_append_left _
      (List.mem_map_of_mem Event.issue
        (List.mem_map_of_mem (fun vm => VmTask.createSnapshot vm name "Created with sysvm" false false) hvm))
  · intro vm
    have hinj : Function.Injective
        (fun vm => Event.issue (VmTask.createSnapshot vm name "Created with sysvm" false false)) := by
      intro a b hab
      simpa using hab
    have hmap : (vms.map (fun vm => VmTask.createSnapshot vm name "Created with sysvm" false false)).map Event.issue
        = vms.map (fun vm => Event.issue (VmTask.createSnapshot vm name "Created with sysvm" false false)) := by
      rw [List.map_map]
      rfl
    simp only [vms_snapshot, hmap, List.count_append]
    rw [List.count_map_of_injective vms _ hinj vm]
    have hlast : (List.count
        (Event.issue (VmTask.createSnapshot vm name "Created with sysvm" false false))
        [Event.waitAll (vms.map (fun vm => VmTask.createSnapshot vm name "Created with sysvm" false false))]) = 0 := by
      simp
    rw [hlast]
    omega

theorem vms_snapshot_bulk_witness :
    (⟨"vm-a", "poweredOff", []⟩ : VM) ∈ [(⟨"vm-a", "poweredOff", []⟩ : VM)] ∧
    Event.issue (VmTask.createSnapshot ⟨"vm-a", "poweredOff", []⟩ "snap1" "Created with sysvm" false false)
      ∈ vms_snapshot [⟨"vm-a", "poweredOff", []⟩] "snap1" :=
  ⟨by simp, (vms_snapshot_bulk [⟨"vm-a", "poweredOff", []⟩] "snap1").2.1
    ⟨"vm-a", "poweredOff", []⟩ (by simp)⟩

/-- C6: vms_destroy issues one Destroy task for each VM of the list and
its very last action is the _wait_for_tasks call on exactly that batch
of Destroy tasks, so the method returns only after waiting on all of
them. -/
theorem vms_destroy_bulk (vms : List VM) :
    (∃ pre : List Event,
      vms_destroy vms =
        pre ++ ((vms.map VmTask.destroy).map Event.issue
          ++ [Event.waitAll (vms.map VmTask.destroy)])) ∧
    (∀ vm ∈ vms, Event.issue (VmTask.destroy vm) ∈ vms_destroy vms) ∧
    (vms_destroy vms).getLast? = some (Event.waitAll (vms.map VmTask.destroy)) := by
  refine ⟨⟨_, rfl⟩, ?_, ?_⟩
  · intro vm hvm
    unfold vms_destroy
    exact List.mem_append_right _
      (List.mem_append_left _
        (List.mem_map_of_mem Event.issue (List.mem_map_of_mem VmTask.destroy hvm)))
  · have hassoc : vms_destroy vms =
        ((if vms.any (fun vm => vm.powerState != "poweredOff") then
            ((vms.filter (fun vm => vm.powerState != "poweredOff")).map VmTask.powerOff).map Event.issue
              ++ [Event.waitAll ((vms.filter (fun vm => vm.powerState != "poweredOff")).map VmTask.powerOff)]
          else [])
          ++ (vms.map VmTask.destroy).map Event.issue)
          ++ [Event.waitAll (vms.map VmTask.destroy)] := by
      unfold vms_destroy
      rw [List.append_assoc]
    rw [hassoc, List.getLast?_concat]

theorem vms_destroy_bulk_witness :
    (⟨"vm-a", "poweredOff", []⟩ : VM) ∈ [(⟨"vm-a", "poweredOff", []⟩ : VM)] ∧
    Event.issue (VmTask.destroy ⟨"vm-a", "poweredOff", []⟩) ∈
      vms_destroy [⟨"vm-a", "poweredOff", []⟩] :=
  ⟨by simp, (vms_destroy_bulk [⟨"vm-a", "poweredOff", []⟩]).2.1
    ⟨"vm-a", "poweredOff", []⟩ (by simp)⟩

/-- C9: vms_destroy runs in two phases.  If no VM needs powering off,
no PowerOff task is issued at all; otherwise it first issues PowerOff
tasks for exactly the VMs whose runtime.powerState is not "poweredOff"
and waits for that whole batch, and only after that wait does it issue
the Destroy tasks (followed by their own wait). -/
theorem vms_destroy_powers_off_first (vms : List VM) :
    (vms.filter (fun vm => vm.powerState != "poweredOff") = [] →
      vms_destroy vms =
        (vms.map VmTask.destroy).map Event.issue ++ [Event.waitAll (vms.map VmTask.destroy)]) ∧
    (∀ offvms : List VM,
      offvms = vms.filter (fun vm => vm.powerState != "poweredOff") → offvms ≠ [] →
      vms_destroy vms =
        ((offvms.map VmTask.powerOff).map Event.issue ++ [Event.waitAll (offvms.map VmTask.powerOff)])
          ++ ((vms.map VmTask.destroy).map Event.issue
            ++ [Event.waitAll (vms.map VmTask.destroy)])) := by
  constructor
  · intro hfil
    have hany : ¬ (vms.any (fun vm => vm.powerState != "poweredOff") = true) := by
      rw [List.any_eq_true]
      rintro ⟨x, hx, hpx⟩
      exact (List.filter_eq_nil_iff.mp hfil x hx) hpx
    unfold vms_destroy
    rw [if_neg hany, List.nil_append]
  · intro offvms hdef hne
    have hany : vms.any (fun vm => vm.powerState != "poweredOff") = true := by
      rw [List.any_eq_true]
      cases hfil : vms.filter (fun vm => vm.powerState != "poweredOff") with
      | nil => exact absurd (hdef.trans hfil) hne
      | cons a as =>
        have ha : a ∈ vms.filter (fun vm => vm.powerState != "poweredOff") := by
          rw [hfil]
          exact List.mem_cons_self a as
        rcases List.mem_filter.mp ha with ⟨hmem, hpa⟩
        exact ⟨a, hmem, hpa⟩
    subst hdef
    unfold vms_destroy
    rw [if_pos hany]

theorem vms_destroy_powers_off_first_witness :
    ([(⟨"vm-a", "poweredOn", []⟩ : VM)].filter (fun vm => vm.powerState != "poweredOff")
        = [(⟨"vm-a", "poweredOn", []⟩ : VM)]) ∧
    vms_destroy [(⟨"vm-a", "poweredOn", []⟩ : VM)] =
      (([(⟨"vm-a", "poweredOn", []⟩ : VM)].map VmTask.powerOff).map Event.issue
          ++ [Event.waitAll ([(⟨"vm-a", "poweredOn", []⟩ : VM)].map VmTask.powerOff)])
        ++ (([(⟨"vm-a", "poweredOn", []⟩ : VM)].map VmTask.destroy).map Event.issue
          ++ [Event.waitAll ([(⟨"vm-a", "poweredOn", []⟩ : VM)].map VmTask.destroy)]) :=
  ⟨by decide,
    (vms_destroy_powers_off_first [(⟨"vm-a", "poweredOn", []⟩ : VM)]).2
      [(⟨"vm-a", "poweredOn", []⟩ : VM)] (by decide) (by decide)⟩

/-! ### Views, NICs and network reassignment (sysvm/__init__.py) -/

/-- VConn.get_vmnets (lines 193-202): the container view over
vim.Network under the root folder yields every network of the
inventory, which the list comprehension copies and returns. -/
def get_vmnets (inv : Inventory) : List Network :=
  inv.networks

/-- VConn.vm_get_nics (lines 204-218): the devices of
vm.config.hardware.device that are instances of
vim.vm.device.VirtualEthernetCard. -/
def vm_get_nics (vm : VM) : List VirtualEthernetCard :=
  vm.devices.filterMap (fun device =>
    match device with
    | VirtualDevice.ethernetCard card => some card
    | VirtualDevice.otherDevice => none)

/-- The IndexError raised by the [0] subscript in vm_change_network
when the corresponding lookup list comprehension is empty. -/
inductive PyIndexError
  | interfaceLookup
  | networkLookup
  deriving DecidableEq, Repr

/-- VConn.vm_change_network (lines 220-243): take the first NIC whose
deviceInfo.label equals interface_name (IndexError if none), the first
network whose name equals network_name (IndexError if none), build a
VirtualDeviceSpec that edits that NIC with wakeOnLanEnabled, a network
backing pointing at the found network under deviceName network_name,
and a fresh ConnectInfo, then issue one Reconfigure task carrying that
single-element deviceChange and wait for it. -/
def vm_change_network (inv : Inventory) (vm : VM) (interface_name network_name : String) :
    Except PyIndexError (List Event) :=
  match (vm_get_nics vm).filter (fun nic => nic.label == interface_name) with
  | [] => Except.error PyIndexError.interfaceLookup
  | interface :: _ =>
    match (get_vmnets inv).filter (fun net => net.name == network_name) with
    | [] => Except.error PyIndexError.networkLookup
    | network :: _ =>
      let device : VirtualEthernetCard :=
        { interface with
          wakeOnLanEnabled := true
          backing := DeviceBacking.networkBacking network network_name
          connectable := { startConnected := true, allowGuestControl := true } }
      let nicspec : VirtualDeviceSpec := { operation := DeviceOperation.edit, device := device }
      let config_spec : ConfigSpec := { deviceChange := [nicspec] }
      Except.ok [Event.issue (VmTask.reconfigure vm config_spec),
        Event.waitAll [VmTask.reconfigure vm config_spec]]

/-- C5: when the VM has a NIC labelled interface_name and a network
named network_name exists, vm_change_network issues one Reconfigure
task whose single deviceChange entry edits a NIC with that label,
setting its backing to the found network (whose name is network_name),
and waits for that task; when either lookup is empty the call fails
with an IndexError and issues nothing. -/
theorem vm_change_network_spec (inv : Inventory) (vm : VM) (interface_name network_name : String) :
    ((∃ nic ∈ vm_get_nics vm, nic.label = interface_name) →
      (∃ net ∈ get_vmnets inv, net.name = network_name) →
      ∃ nic net task,
        nic ∈ vm_get_nics vm ∧ nic.label = interface_name ∧
        net ∈ get_vmnets inv ∧ net.name = network_name ∧
        task = VmTask.reconfigure vm
          { deviceChange :=
              [{ operation := DeviceOperation.edit,
                 device :=
                   { nic with
                     wakeOnLanEnabled := true,
                     backing := DeviceBacking.networkBacking net network_name,
                     connectable := { startConnected := true, allowGuestControl := true } }
               }] } ∧
        vm_change_network inv vm interface_name network_name =
          Except.ok [Event.issue task, Event.waitAll [task]]) ∧
    (((∀ nic ∈ vm_get_nics vm, nic.label ≠ interface_name) ∨
      (∀ net ∈ get_vmnets inv, net.name ≠ network_name)) →
      ∃ e, vm_change_network inv vm interface_name network_name = Except.error e) := by
  constructor
  · rintro ⟨nic0, hnic0, hlab0⟩ ⟨net0, hnet0, hname0⟩
    cases hfil1 : (vm_get_nics vm).filter (fun nic => nic.label == interface_name) with
    | nil =>
      exact absurd (beq_iff_eq.mpr hlab0)
        (by simpa using List.filter_eq_nil_iff.mp hfil1 nic0 hnic0)
    | cons i irest =>
      cases hfil2 : (get_vmnets inv).filter (fun net => net.name == network_name) with
      | nil =>
        exact absurd (beq_iff_eq.mpr hname0)
          (by simpa using List.filter_eq_nil_iff.mp hfil2 net0 hnet0)
      | cons n nrest =>
        have hi : i ∈ (vm_get_nics vm).filter (fun nic => nic.label == interface_name) := by
          rw [hfil1]; exact List.mem_cons_self i irest
        have hn : n ∈ (get_vmnets inv).filter (fun net => net.name == network_name) := by
          rw [hfil2]; exact List.mem_cons_self n nrest
        rcases List.mem_filter.mp hi with ⟨himem, hilab⟩
        rcases List.mem_filter.mp hn with ⟨hnmem, hnname⟩
        refine ⟨i, n, _, himem, beq_iff_eq.mp hilab, hnmem, beq_iff_eq.mp hnname, rfl, ?_⟩
        unfold vm_change_network
        rw [hfil1, hfil2]
  · intro hmiss
    cases hfil1 : (vm_get_nics vm).filter (fun nic => nic.label == interface_name) with
    | nil =>
      refine ⟨PyIndexError.interfaceLookup, ?_⟩
      unfold vm_change_network
      rw [hfil1]
    | cons i irest =>
      have hi : i ∈ (vm_get_nics vm).filter (fun nic => nic.label == interface_name) := by
        rw [hfil1]; exact List.mem_cons_self i irest
      rcases List.mem_filter.mp hi with ⟨himem, hilab⟩
      rcases hmiss with hnonic | hnonet
      · exact absurd (beq_iff_eq.mp hilab) (hnonic i himem)
      · have hfil2 : (get_vmnets inv).filter (fun net => net.name == network_name) = [] := by
          apply List.filter_eq_nil_iff.mpr
          intro net hnet
          simpa using hnonet net hnet
        refine ⟨PyIndexError.networkLookup, ?_⟩
        unfold vm_change_network
        rw [hfil1, hfil2]

/-- Concrete run of the C5 theorem on a one-NIC VM and a one-network
inventory. -/
def demoNic : VirtualEthernetCard :=
  { label := "Network adapter 1"
    backing := DeviceBacking.otherBacking
    wakeOnLanEnabled := false
    connectable := { startConnected := false, allowGuestControl := false } }

def demoNetVM : VM :=
  { name := "vm-a", powerState := "poweredOn", devices := [VirtualDevice.ethernetCard demoNic] }

def demoInventory : Inventory :=
  { vms := [demoNetVM], networks := [{ name := "VM Network" }] }

theorem vm_change_network_spec_witness :
    (∃ nic ∈ vm_get_nics demoNetVM, nic.label = "Network adapter 1") ∧
    (∃ net ∈ get_vmnets demoInventory, net.name = "VM Network") ∧
    (∃ nic net task,
      nic ∈ vm_get_nics demoNetVM ∧ nic.label = "Network adapter 1" ∧
      net ∈ get_vmnets demoInventory ∧ net.name = "VM Network" ∧
      task = VmTask.reconfigure demoNetVM
        { deviceChange :=
            [{ operation := DeviceOperation.edit,
               device :=
                 { nic with
                   wakeOnLanEnabled := true,
                   backing := DeviceBacking.networkBacking net "VM Network",
                   connectable := { startConnected := true, allowGuestControl := true } }
             }] } ∧
      vm_change_network demoInventory demoNetVM "Network adapter 1" "VM Network" =
        Except.ok [Event.issue task, Event.waitAll [task]]) :=
  ⟨⟨demoNic, by simp [vm_get_nics, demoNetVM], rfl⟩,
    ⟨{ name := "VM Network" }, by simp [get_vmnets, demoInventory], rfl⟩,
    (vm_change_network_spec demoInventory demoNetVM "Network adapter 1" "VM Network").1
      ⟨demoNic, by simp [vm_get_nics, demoNetVM], rfl⟩
      ⟨{ name := "VM Network" }, by simp [get_vmnets, demoInventory], rfl⟩⟩

/-! ### VM search (sysvm/__init__.py lines 61-94) -/

/-- Does the character list pat occur as a leading block of s?  This is
the auxiliary notion for the Python substring containment test. -/
def charsStart : List Char → List Char → Bool
  | _, [] => true
  | [], _ :: _ => false
  | c :: s, d :: p => c == d && charsStart s p

/-- Does the character list pat occur contiguously anywhere inside s?
the Python membership test pat in s on strings. -/
def charsContain : List Char → List Char → Bool
  | [], pat => pat.isEmpty
  | c :: s, pat => charsStart (c :: s) pat || charsContain s pat

/-- The Python expression search in str(vm.name): substring
containment on strings. -/
def strContains (s pat : String) : Bool :=
  charsContain s.toList pat.toList

/-- VConn.get_vms (lines 61-94): with a falsy (empty) search string,
return the whole container view; otherwise with exact=True keep the
VMs whose name equals the search string, and with exact=False keep the
VMs whose name contains it as a substring. -/
def get_vms (inv : Inventory) (search : String) (exact : Bool) : List VM :=
  if search = "" then inv.vms
  else if exact = true then inv.vms.filter (fun vm => vm.name == search)
  else inv.vms.filter (fun vm => strContains vm.name search)

/-- C10: get_vms with an empty search string returns every VM of the
inventory; with a non-empty search string and exact=True it returns
exactly the VMs whose name equals the search string; with a non-empty
search string and exact=False it returns exactly the VMs whose name
contains the search string as a substring. -/
theorem get_vms_search_semantics (inv : Inventory) (search : String) (b : Bool) :
    (get_vms inv "" b = inv.vms) ∧
    (search ≠ "" → ∀ vm : VM,
      vm ∈ get_vms inv search true ↔ vm ∈ inv.vms ∧ vm.name = search) ∧
    (search ≠ "" → ∀ vm : VM,
      vm ∈ get_vms inv search false ↔ vm ∈ inv.vms ∧ strContains vm.name search = true) := by
  refine ⟨?_, ?_, ?_⟩
  · unfold get_vms
    rw [if_pos rfl]
  · intro h vm
    unfold get_vms
    rw [if_neg h, if_pos rfl, List.mem_filter, beq_iff_eq]
  · intro h vm
    unfold get_vms
    rw [if_neg h, if_neg (by simp), List.mem_filter]

/-- Concrete run of the C10 theorem: substring search "vm" matches
vm-a of the demo inventory. -/
theorem get_vms_search_semantics_witness :
    ("vm" : String) ≠ "" ∧
    (demoNetVM ∈ get_vms demoInventory "vm" false ↔
      demoNetVM ∈ demoInventory.vms ∧ strContains demoNetVM.name "vm" = true) :=
  ⟨by decide, (get_vms_search_semantics demoInventory "vm" false).2.2 (by decide) demoNetVM⟩

/-! ### The CLI control flow (sysvm/main.py) -/

/-- Outcome of the SmartConnect call inside the try block of main: either
the connection is established or vim.fault.InvalidLogin is raised (the
only exception main catches). -/
inductive ConnectOutcome
  | ok
  | invalidLogin
  deriving DecidableEq, Repr

/-- The control-flow milestones of main (lines 265-283), in program
order: the banner print, the connection attempt inside the try block,
the post-connect print, sys.exit(1) in the InvalidLogin handler, and
entry into the while-True command loop. -/
inductive MainEvent
  | printBanner
  | connectAttempt
  | printConnected
  | exitProgram (code : Nat)
  | enterCommandLoop
  deriving DecidableEq, Repr

/-- The sequence of milestones main passes through, as a function of
the connection outcome: print the banner, build VConn, attempt the
connection; on InvalidLogin print the error and sys.exit(1); otherwise
print the success message and enter the infinite command loop. -/
def mainFlow : ConnectOutcome → List MainEvent
  | ConnectOutcome.ok =>
    [MainEvent.printBanner, MainEvent.connectAttempt,
      MainEvent.printConnected, MainEvent.enterCommandLoop]
  | ConnectOutcome.invalidLogin =>
    [MainEvent.printBanner, MainEvent.connectAttempt, MainEvent.exitProgram 1]

/-- C7: in every run of main the connection attempt happens strictly
before the command loop is entered (it occurs among the milestones
preceding the first loop entry), and when the connection raises
InvalidLogin the run ends with sys.exit(1) and the command loop is
never entered. -/
theorem main_connects_before_command_loop (o : ConnectOutcome) :
    (MainEvent.enterCommandLoop ∈ mainFlow o →
      MainEvent.connectAttempt ∈
        (mainFlow o).takeWhile (fun e => e != MainEvent.enterCommandLoop)) ∧
    (o = ConnectOutcome.invalidLogin →
      MainEvent.enterCommandLoop ∉ mainFlow o ∧
      (mainFlow o).getLast? = some (MainEvent.exitProgram 1)) := by
  cases o
  · exact ⟨fun _ => by decide, fun h => by cases h⟩
  · exact ⟨fun h => absurd h (by decide), fun _ => ⟨by decide, by decide⟩⟩

theorem main_connects_before_command_loop_witness :
    (MainEvent.enterCommandLoop ∈ mainFlow ConnectOutcome.ok ∧
      MainEvent.connectAttempt ∈
        (mainFlow ConnectOutcome.ok).takeWhile (fun e => e != MainEvent.enterCommandLoop)) ∧
    (MainEvent.enterCommandLoop ∉ mainFlow ConnectOutcome.invalidLogin ∧
      (mainFlow ConnectOutcome.invalidLogin).getLast? = some (MainEvent.exitProgram 1)) :=
  ⟨⟨by decide, (main_connects_before_command_loop ConnectOutcome.ok).1 (by decide)⟩,
    (main_connects_before_command_loop ConnectOutcome.invalidLogin).2 rfl⟩

/-- The members of the VMCommand enum in main.py that get_command can
hand to do_command.  QUIT is intercepted by get_command (it calls
sys.exit) and HELP only reprints the help text, but both are members
of the enum, so they are kept; if they reached do_command they would
fall into the catch-all branch like any unimplemented command. -/
inductive VMCommand
  | POWER_ON
  | POWER_OFF
  | SNAPSHOT
  | RESTORE_LATEST
  | CHANGE_NETWORK
  | DELETE_FROM_DISK
  | VIEW_INFO
  | COMMAND
  | QUIT
  | HELP
  deriving DecidableEq, Repr

/-- Why a run of the VM-command level ended. -/
inductive LoopEnd
  | deleted
  | awaitingInput
  deriving DecidableEq, Repr

/-- The re-prompting tail of VMCommand.do_command (lines 158-167):
after the dispatched operation finishes, unless the command was
DELETE_FROM_DISK, get_command is called again and do_command recurses
on the same VM set.  The argument script lists the commands the user
will enter at the VM level, and the confirmation prompts of the
destructive branches are taken as accepted; the result is the sequence
of commands dispatched on this VM set, together with why the level was
left (the set was deleted, or the finite script ran out while
get_command was waiting for more input). -/
def do_command_loop : VMCommand → List VMCommand → List VMCommand × LoopEnd
  | cmd, [] =>
    if cmd = VMCommand.DELETE_FROM_DISK then ([cmd], LoopEnd.deleted)
    else ([cmd], LoopEnd.awaitingInput)
  | cmd, next :: rest =>
    if cmd = VMCommand.DELETE_FROM_DISK then ([cmd], LoopEnd.deleted)
    else
      let r := do_command_loop next rest
      (cmd :: r.1, r.2)

theorem do_command_loop_fst_ne_nil (cmd : VMCommand) (script : List VMCommand) :
    (do_command_loop cmd script).1 ≠ [] := by
  cases script with
  | nil =>
    unfold do_command_loop
    by_cases h : cmd = VMCommand.DELETE_FROM_DISK
    · rw [if_pos h]; simp
    · rw [if_neg h]; simp
  | cons next rest =>
    unfold do_command_loop
    by_cases h : cmd = VMCommand.DELETE_FROM_DISK
    · rw [if_pos h]; simp
    · rw [if_neg h]; simp

/-- C8: the VM level is a two-level menu.  After any command other
than DELETE_FROM_DISK, do_command prompts for the next command and
recurses on the same VM set; a DELETE_FROM_DISK command ends the level
at once, whatever the user would have typed next; and the only way the
level ends with the set deleted is that the last dispatched command
was DELETE_FROM_DISK. -/
theorem do_command_two_level_menu (cmd : VMCommand) (script : List VMCommand) :
    (cmd ≠ VMCommand.DELETE_FROM_DISK → ∀ next rest,
      do_command_loop cmd (next :: rest) =
        (cmd :: (do_command_loop next rest).1, (do_command_loop next rest).2)) ∧
    (do_command_loop VMCommand.DELETE_FROM_DISK script =
      ([VMCommand.DELETE_FROM_DISK], LoopEnd.deleted)) ∧
    ((do_command_loop cmd script).2 = LoopEnd.deleted →
      (do_command_loop cmd script).1.getLast? = some VMCommand.DELETE_FROM_DISK) := by
  refine ⟨?_, ?_, ?_⟩
  · intro hne next rest
    conv_lhs => rw [do_command_loop]
    rw [if_neg hne]
  · cases script with
    | nil => unfold do_command_loop; rw [if_pos rfl]
    | cons next rest => unfold do_command_loop; rw [if_pos rfl]
  · induction script generalizing cmd with
    | nil =>
      intro hdel
      unfold do_command_loop at hdel ⊢
      by_cases h : cmd = VMCommand.DELETE_FROM_DISK
      · rw [if_pos h] at hdel ⊢
        subst h
        rfl
      · rw [if_neg h] at hdel
        exact absurd hdel (by simp)
    | cons next rest ih =>
      intro hdel
      unfold do_command_loop at hdel ⊢
      by_cases h : cmd = VMCommand.DELETE_FROM_DISK
      · rw [if_pos h] at hdel ⊢
        subst h
        rfl
      · rw [if_neg h] at hdel ⊢
        have htail := ih next hdel
        have hne := do_command_loop_fst_ne_nil next rest
        show (cmd :: (do_command_loop next rest).1).getLast? = some VMCommand.DELETE_FROM_DISK
        cases hx : (do_command_loop next rest).1 with
        | nil => exact absurd hx hne
        | cons a as =>
          rw [hx] at htail
          rw [List.getLast?_cons_cons]
          exact htail

theorem do_command_two_level_menu_witness :
    VMCommand.POWER_ON ≠ VMCommand.DELETE_FROM_DISK ∧
    do_command_loop VMCommand.POWER_ON [VMCommand.DELETE_FROM_DISK] =
      (VMCommand.POWER_ON :: (do_command_loop VMCommand.DELETE_FROM_DISK []).1,
        (do_command_loop VMCommand.DELETE_FROM_DISK []).2) :=
  ⟨by decide,
    (do_command_two_level_menu VMCommand.POWER_ON []).1 (by decide)
      VMCommand.DELETE_FROM_DISK []⟩

end Sysvm
